import Mathlib

/-!
Shallow embedding of the goreq HTTP request builder (package `goreq`):
a fluent builder with a composable transport-decorator pipeline
(trace, logging, timeout) around a base `http.RoundTripper`.

Each definition is translated from the Go source; the comment on a
definition names the source function it embeds.  Machine integers are
modelled as `Int`/`Nat`, Go time instants and durations as `Int`
nanoseconds, Go byte strings as `List Nat`, and side effects (event
order, the package-global logger, header-map mutation) by explicit
state passing.
-/

namespace Goreq

/-! ## Transport decorator composition

`Transport` in the source is `func(*http.Request) (*http.Response, error)`;
`builder.buildTransport` folds `b.transportWrappers` over
`http.DefaultTransport` with `transport = transportWrapper(transport)`.
The fold is modelled polymorphically over the transport type `T`.
-/

/-- The decorator fold of `builder.buildTransport` (part_001 lines 180-183):
`transport := base; for _, w := range wrappers { transport = w(transport) }`. -/
def foldWrappers {T : Type} (ws : List (T → T)) (base : T) : T :=
  ws.foldl (fun t w => w t) base

/-- Events recorded by instrumented decorators: entry into decorator `i`,
return through decorator `i`, and the base transport's network call. -/
inductive Ev where
  | call (i : Nat)
  | ret (i : Nat)
  | base
deriving DecidableEq, Repr

/-- A transport instrumented for order observation: it maps the event log
accumulated before its invocation to the log after it returns. -/
abbrev LogTransport := List Ev → List Ev

/-- An instrumented decorator with tag `i`: records its entry, invokes the
transport it wraps, records its exit.  This is the "instrumented decorator
recording invocation sequence" of the spec's testable property. -/
def tagWrapper (i : Nat) (next : LogTransport) : LogTransport :=
  fun log => next (log ++ [Ev.call i]) ++ [Ev.ret i]

/-- The instrumented base transport (stands for `http.DefaultTransport`). -/
def baseTransport : LogTransport :=
  fun log => log ++ [Ev.base]

/-- The transport-related state of `builder` (part_001 lines 76-89):
`transportWrappers`, the `rebuildTransport` int32 flag, and
`cachedTransport` (a nil `http.RoundTripper` is `none`). -/
structure TransportCacheState (T : Type) where
  transportWrappers : List (T → T)
  rebuildTransport : Int
  cachedTransport : Option T

/-- `New()` (part_001 lines 91-97): empty wrapper list, `rebuildTransport: 1`,
nil cached transport. -/
def newTransportCacheState (T : Type) : TransportCacheState T :=
  { transportWrappers := [], rebuildTransport := 1, cachedTransport := none }

/-- `builder.WrapTransport` (part_001 lines 99-102): appends the wrappers.
It does not touch `rebuildTransport` or `cachedTransport`. -/
def wrapTransport {T : Type} (s : TransportCacheState T) (ws : List (T → T)) :
    TransportCacheState T :=
  { s with transportWrappers := s.transportWrappers ++ ws }

/-- Result of one `buildTransport` call: the returned transport (`none` when
the nil cached transport is returned), the builder state afterwards, and
which branch ran (`usedCache = true` iff the early `return b.cachedTransport`
path was taken, i.e. the decorators were not re-folded). -/
structure BuildResult (T : Type) where
  transport : Option T
  state : TransportCacheState T
  usedCache : Bool

/-- `builder.buildTransport` (part_001 lines 176-187):
`if atomic.LoadInt32(&b.rebuildTransport) != 1 { return b.cachedTransport }`,
otherwise fold the wrappers over the base, store the result in
`b.cachedTransport`, and execute `atomic.StoreInt32(&b.rebuildTransport, 1)`
(the source stores `1`, not `0`). -/
def buildTransport {T : Type} (base : T) (s : TransportCacheState T) : BuildResult T :=
  if s.rebuildTransport ≠ 1 then
    { transport := s.cachedTransport, state := s, usedCache := true }
  else
    let t := foldWrappers s.transportWrappers base
    { transport := some t,
      state := { s with cachedTransport := some t, rebuildTransport := 1 },
      usedCache := false }

/-! ## Timeout decorator

`TimeoutTransport` (part_000 lines 143-165).  Time instants and durations
are `Int` nanoseconds; `now` stands for the single `time.Now()` read at the
deadline check.  A Go `context.Context` deadline is an `Option Int`.
The source declares `var cancel context.CancelFunc` and assigns it only
inside `if !ok || deadline.After(time.Now().Add(duration))`; the
unconditional `defer cancel()` therefore calls a nil function — a runtime
panic — whenever that branch was not taken.  The deferred call runs after
`next.RoundTrip` returns and replaces the returned value by the panic. -/

/-- A Go runtime panic relevant to this code: calling a nil function value. -/
inductive GoPanic where
  | nilFunctionCall
deriving DecidableEq, Repr

/-- Outcome of one round trip through the Timeout decorator: the deadline of
the context handed to the inner transport, and either the inner result or
the panic raised by the deferred call. -/
structure TimeoutRun (R : Type) where
  innerDeadline : Option Int
  outcome : Except GoPanic R

/-- `time.Second * 5` in nanoseconds, the default applied when the configured
duration is non-positive (part_000 lines 144-146). -/
def fiveSecondsNs : Int := 5000000000

/-- The round-trip function of `TimeoutTransport(duration)` (part_000 lines
148-163).  `inner` is `next.RoundTrip`, modelled as a function of the
deadline carried by the context it receives.  In the branch where no
derived context is created, `inner` is still invoked (with the untouched
context) but the deferred nil `cancel` then panics, so the inner result is
discarded and the panic propagates. -/
def timeoutRoundTrip {R : Type} (duration now : Int) (ctxDeadline : Option Int)
    (inner : Option Int → R) : TimeoutRun R :=
  let d := if duration ≤ 0 then fiveSecondsNs else duration
  match ctxDeadline with
  | none =>
      { innerDeadline := some (now + d), outcome := Except.ok (inner (some (now + d))) }
  | some t =>
      if now + d < t then
        { innerDeadline := some (now + d), outcome := Except.ok (inner (some (now + d))) }
      else
        { innerDeadline := some t, outcome := Except.error GoPanic.nilFunctionCall }

/-! ## Trace decorator

`TraceTransport` (part_000 lines 97-116) with the tracing backend at its
boundary: starting a span yields a trace identifier, and the propagator
injects propagation headers into the request's header collection.
`contextWithTraceID`/`traceIDFromContext` (part_000 lines 167-179) bind and
read the trace id under a private context key.  The source contains no call
of `span.End()`. -/

/-- A header collection, `http.Header`, as a list of key-value pairs in
insertion order (one pair per added value). -/
abbrev Header := List (String × String)

/-- A context's value store: newest binding first, as `context.WithValue`
shadows outer bindings. -/
abbrev Ctx := List (String × String)

/-- The private `traceIDKey{}` type, as a reserved key name. -/
def traceIDKeyName : String := "goreq.traceIDKey"

/-- `contextWithTraceID` (part_000 lines 169-171). -/
def contextWithTraceID (ctx : Ctx) (traceID : String) : Ctx :=
  (traceIDKeyName, traceID) :: ctx

/-- `ctx.Value(k)`: the most recent binding for `k`, if any. -/
def ctxValue (ctx : Ctx) (k : String) : Option String :=
  (ctx.find? (fun p => p.1 == k)).map (fun p => p.2)

/-- `traceIDFromContext` (part_000 lines 173-179): the bound trace id, or
the empty string when none is bound. -/
def traceIDFromContext (ctx : Ctx) : String :=
  (ctxValue ctx traceIDKeyName).getD ""

/-- Observable tracing effects a trace decorator can perform. -/
inductive TraceEv where
  | spanStart
  | inject
  | bindTraceID
  | innerCall
  | spanEnd
deriving DecidableEq, Repr

/-- The tracing backend at its boundary: starting a span produces a span
whose context carries `spanTraceID`, and the propagator injects
`propagationHeaders` for it. -/
structure TracerModel where
  spanTraceID : String
  propagationHeaders : List (String × String)

/-- The request as the trace decorator sees it: header collection and
execution context. -/
structure TraceReq where
  header : Header
  ctx : Ctx

/-- The round-trip function of `TraceTransport(name)` (part_000 lines
100-114): start a span (`tracer.Start`), inject the propagation headers
into `r.Header`, bind the span's trace id into the context
(`contextWithTraceID`), and call `next.RoundTrip` with the updated request.
The inner transport threads the same event log.  No `spanEnd` event is ever
appended: the source never calls `span.End()`. -/
def traceRoundTrip {R : Type} (tm : TracerModel)
    (inner : TraceReq → List TraceEv → R × List TraceEv)
    (r : TraceReq) (log : List TraceEv) : R × List TraceEv :=
  let log1 := log ++ [TraceEv.spanStart]
  let r1 : TraceReq := { r with header := r.header ++ tm.propagationHeaders }
  let log2 := log1 ++ [TraceEv.inject]
  let r2 : TraceReq := { r1 with ctx := contextWithTraceID r1.ctx tm.spanTraceID }
  let log3 := log2 ++ [TraceEv.bindTraceID]
  inner r2 log3

/-! ## Logging decorator

`LoggingTransport` (part_000 lines 118-141) over the zap boundary: a zap
`Logger` is its accumulated list of key-value fields, `logger.With(f)` is a
child logger with `f` appended, and `logger.Info(msg)` emits one record
carrying the logger's fields.  The source's deferred block REASSIGNS the
package-global `logger` variable (part_000 lines 23-25) to the child carrying
this request's fields, then emits through it. -/

/-- A zap field value as used here: `zap.String`, `zap.Int64`/`zap.Int`. -/
inductive FieldVal where
  | str (s : String)
  | int (n : Int)
deriving DecidableEq, Repr

/-- A zap logger, identified with its accumulated field list. -/
abbrev Logger := List (String × FieldVal)

/-- One structured log record: message plus the emitting logger's fields. -/
structure LogRecord where
  msg : String
  fields : Logger
deriving DecidableEq, Repr

/-- The part of `*http.Response` the logging decorator reads. -/
structure HResp where
  statusCode : Int
deriving DecidableEq, Repr

/-- The part of `*http.Request` the logging decorator reads: `r.Host`,
`r.URL.Path`, and `r.Context()`. -/
structure LogReq where
  host : String
  path : String
  ctx : Ctx

/-- Ordering-relevant effects of a logging round trip. -/
inductive LogEv where
  | innerCall
  | logEmit
deriving DecidableEq, Repr

/-- `start.Format("2006-01-02 15:04:05")`: an abstract injective rendering of
the start instant; the exact textual format is immaterial here. -/
def formatTime (ns : Int) : String := toString ns

/-- The fields the deferred block of `LoggingTransport` chains onto the
global logger for one request (part_000 lines 123-131): `r.Host` under key
"host", `r.URL.Path` also under key "host" (the source repeats the key),
the service name, the formatted start time, the elapsed milliseconds
(`time.Since(start).Milliseconds()`, nanoseconds divided by 1e6), the trace
id from the context, and — only when a response was obtained — its status
code. -/
def loggingFields (name : String) (r : LogReq) (startNs endNs : Int)
    (res : Except String HResp) : Logger :=
  let base := [("host", FieldVal.str r.host),
               ("host", FieldVal.str r.path),
               ("service", FieldVal.str name),
               ("start", FieldVal.str (formatTime startNs)),
               ("elapsed", FieldVal.int ((endNs - startNs) / 1000000)),
               ("trace_id", FieldVal.str (traceIDFromContext r.ctx))]
  match res with
  | Except.ok resp => base ++ [("statuscode", FieldVal.int resp.statusCode)]
  | Except.error _ => base

/-- Outcome of one round trip through the logging decorator: the propagated
inner result, the package-global logger afterwards, the records this call
emitted, and the event log. -/
structure LoggingRun where
  result : Except String HResp
  globalLogger : Logger
  records : List LogRecord
  events : List LogEv

/-- The round-trip function of `LoggingTransport(name)` (part_000 lines
120-139).  `g` is the package-global `logger` before the call; `startNs` and
`endNs` are the `time.Now()` reads at entry and inside the deferred block.
`inner` is `next.RoundTrip`, threading the event log.  The deferred block
runs after the inner call returns: it reassigns the global logger to the
child carrying this request's fields (and the status code when the named
return `resp` is non-nil, i.e. on success) and emits exactly one
`"client_request"` record through it. -/
def loggingRoundTrip (name : String) (g : Logger) (r : LogReq) (startNs endNs : Int)
    (inner : LogReq → List LogEv → Except String HResp × List LogEv)
    (log : List LogEv) : LoggingRun :=
  match inner r log with
  | (res, log1) =>
      let g1 := g ++ loggingFields name r startNs endNs res
      { result := res,
        globalLogger := g1,
        records := [{ msg := "client_request", fields := g1 }],
        events := log1 ++ [LogEv.logEmit] }

/-! ## URL assembly and query encoding

`builder.buildURL` (part_001 lines 149-158) concatenates base URL, URL and
the `?`-prefixed `url.Values.Encode()` output.  Go strings are byte strings;
they are modelled at the byte level as `List Nat` so that percent-encoding
is faithful.  `url.Values` is `map[string][]string`; insertion-ordered
association lists with unique keys model it, `Values.Add` appends to a
key's slice, and `Encode` sorts the keys (`sort.Strings`), emits
`escape(k)=escape(v)` per value in order, and joins the segments with
`&`. -/

/-- A Go string at the byte level. -/
abbrev GoStr := List Nat

/-- `url.Values`: association from key to its values, keyed uniquely. -/
abbrev Values := List (GoStr × List GoStr)

/-- `url.Values.Add` (net/url): `v[key] = append(v[key], value)`. -/
def valuesAdd (vs : Values) (k v : GoStr) : Values :=
  match vs with
  | [] => [(k, [v])]
  | (k', l) :: rest =>
      if k' = k then (k', l ++ [v]) :: rest else (k', l) :: valuesAdd rest k v

/-- The list of values stored under a key (`v[key]`). -/
def lookupVals (vs : Values) (k : GoStr) : List GoStr :=
  match vs with
  | [] => []
  | (k', l) :: rest => if k' = k then l else lookupVals rest k

/-- Byte-wise lexicographic string order, as `sort.Strings` compares. -/
def goStrLe : GoStr → GoStr → Bool
  | [], _ => true
  | _ :: _, [] => false
  | a :: s, b :: t => if a < b then true else if b < a then false else goStrLe s t

/-- Insert an entry into a key-sorted association list. -/
def insertByKey (p : GoStr × List GoStr) : Values → Values
  | [] => [p]
  | q :: rest => if goStrLe p.1 q.1 then p :: q :: rest else q :: insertByKey p rest

/-- Sort the entries by key: the `sort.Strings(keys)` step of `Encode`. -/
def sortByKey (vs : Values) : Values :=
  match vs with
  | [] => []
  | p :: rest => insertByKey p (sortByKey rest)

/-- Bytes `url.QueryEscape` leaves unescaped: ALPHA, DIGIT, `-` `_` `.` `~`. -/
def unreservedByte (b : Nat) : Bool :=
  (48 ≤ b && b ≤ 57) || (65 ≤ b && b ≤ 90) || (97 ≤ b && b ≤ 122) ||
    b == 45 || b == 95 || b == 46 || b == 126

/-- Uppercase hexadecimal digit byte for a value below 16 ("0123456789ABCDEF"). -/
def hexUpper (n : Nat) : Nat :=
  if n < 10 then 48 + n else 55 + n

/-- `url.QueryEscape` on one byte: unreserved bytes kept, space (32) becomes
`+` (43), every other byte becomes `%XY` (37 and two uppercase hex bytes). -/
def queryEscapeByte (b : Nat) : GoStr :=
  if unreservedByte b then [b]
  else if b = 32 then [43]
  else [37, hexUpper (b / 16), hexUpper (b % 16)]

/-- `url.QueryEscape` over a whole byte string. -/
def queryEscape (s : GoStr) : GoStr :=
  s.flatMap queryEscapeByte

/-- One `escapedKey=escapedValue` segment (61 is `=`). -/
def pairSegment (k v : GoStr) : GoStr :=
  queryEscape k ++ [61] ++ queryEscape v

/-- The ordered segments `Encode` emits: keys sorted, each key's values in
stored order. -/
def encodedSegments (vs : Values) : List GoStr :=
  (sortByKey vs).flatMap (fun p => p.2.map (fun v => pairSegment p.1 v))

/-- Join segments with `&` (38); every segment is nonempty, so the
`if buf.Len() > 0` guard of the source is plain interleaving. -/
def joinAmp : List GoStr → GoStr
  | [] => []
  | [s] => s
  | s :: rest => s ++ [38] ++ joinAmp rest

/-- `url.Values.Encode` (net/url). -/
def encodeValues (vs : Values) : GoStr :=
  joinAmp (encodedSegments vs)

/-- A byte string whose bytes are genuine bytes (below 256). -/
def validStr (s : GoStr) : Bool :=
  s.all (fun b => b < 256)

/-- All keys and values hold genuine bytes. -/
def validValues (vs : Values) : Bool :=
  vs.all (fun p => validStr p.1 && p.2.all validStr)

/-- Bytes that may legitimately appear in an encoded query string:
unreserved bytes, `+` (43), `%` (37), `=` (61) and `&` (38). -/
def querySafeByte (b : Nat) : Bool :=
  unreservedByte b || b == 43 || b == 37 || b == 61 || b == 38

/-! ## The request builder and `Do`

`builder` (part_001 lines 76-89) and `builder.Do` (part_001 lines 195-227).
The structured request/response values have an abstract type `V`; the codec
is the boundary of section 4.1 of the spec.  Body bytes are `String`.
`http.NewRequestWithContext` is an external boundary: `parseOk` tells
whether it accepts the built method and URL.  The composed transport is a
parameter (its construction is the `buildTransport` model above); it
receives the outgoing request and returns the inner result together with
the contents of the header map after the call, because
`httpReq.Header = b.header` installs the builder's own header map on the
request, so decorator mutations land in the builder's map. -/

/-- The codec boundary (codec.go): `Encode(value) -> bytes | error`,
`Decode(bytes) -> value | error`. -/
structure CodecM (V : Type) where
  encode : V → Except String String
  decode : String → Except String V

/-- The builder's request-descriptor fields (part_001 lines 76-89); `resp`
records whether a response target was set (`b.resp != nil`). -/
structure Builder (V : Type) where
  baseURL : GoStr
  url : GoStr
  method : String
  codec : Option (CodecM V)
  resp : Bool
  req : Option V
  values : Values
  header : Header

/-- `builder.buildURL` (part_001 lines 149-158): prefix the base URL when
set, then append `?` (63) and the encoded query when any parameter exists. -/
def buildURL {V : Type} (b : Builder V) : GoStr :=
  let url := if b.baseURL ≠ [] then b.baseURL ++ b.url else b.url
  if b.values ≠ [] then url ++ [63] ++ encodeValues b.values else url

/-- Modelled from the spec's wording of `Do` step 1 (section 4.3): final URL
= base+relative (if base set) concatenated with relative/absolute URL, then
`?`-encoded query parameters appended if any exist. -/
def specAssembledURL {V : Type} (b : Builder V) : GoStr :=
  (if b.baseURL ≠ [] then b.baseURL ++ b.url else b.url)
    ++ (if b.values ≠ [] then [63] ++ encodeValues b.values else [])

/-- `builder.buildMethod` (part_001 lines 160-166): explicit value or GET. -/
def buildMethod {V : Type} (b : Builder V) : String :=
  if b.method = "" then "GET" else b.method

/-- `builder.buildCodec` (part_001 lines 168-174): explicit codec or the
package default. -/
def buildCodec {V : Type} (b : Builder V) (defaultC : CodecM V) : CodecM V :=
  b.codec.getD defaultC

/-- The outgoing `*http.Request` as `Do` builds it. -/
structure HttpReq where
  method : String
  url : GoStr
  header : Header
  body : Option String

/-- The parts of `*http.Response` that `Do` consumes. -/
structure HttpResp where
  statusCode : Int
  body : String

/-- Ordered effects of one `Do` call. -/
inductive DoEv where
  | encodeBody
  | transportCall
  | decodeBody
  | closeBody
deriving DecidableEq, Repr

/-- Outcome of one `Do` call: the returned error (if any), the contents of
the builder's header map after the call, the header installed on the
outgoing request when one was sent, the decoded response value when
decoding happened, and the effect log. -/
structure DoRun (V : Type) where
  result : Except String Unit
  builderHeader : Header
  sentHeader : Option Header
  decoded : Option V
  events : List DoEv

/-- Lines 208-226 of `Do`: build the request (`http.NewRequestWithContext`),
install the builder's header map on it, run the composed transport, and on
success close the body after the optional decode (`defer`).  On a transport
error no response body exists, so nothing is closed. -/
def doSend {V : Type} (codec : CodecM V) (hasResp : Bool) (hdr0 : Header)
    (method : String) (url : GoStr) (body : Option String)
    (parseOk : String → GoStr → Bool)
    (transport : HttpReq → Except String HttpResp × Header) : DoRun V :=
  if parseOk method url then
    match transport { method := method, url := url, header := hdr0, body := body } with
    | (Except.error e, hdr) =>
        { result := Except.error e, builderHeader := hdr, sentHeader := some hdr0,
          decoded := none, events := [DoEv.transportCall] }
    | (Except.ok resp, hdr) =>
        if hasResp then
          match codec.decode resp.body with
          | Except.error e =>
              { result := Except.error e, builderHeader := hdr, sentHeader := some hdr0,
                decoded := none,
                events := [DoEv.transportCall, DoEv.decodeBody, DoEv.closeBody] }
          | Except.ok v =>
              { result := Except.ok (), builderHeader := hdr, sentHeader := some hdr0,
                decoded := some v,
                events := [DoEv.transportCall, DoEv.decodeBody, DoEv.closeBody] }
        else
          { result := Except.ok (), builderHeader := hdr, sentHeader := some hdr0,
            decoded := none, events := [DoEv.transportCall, DoEv.closeBody] }
  else
    { result := Except.error "RequestConstructionError", builderHeader := hdr0,
      sentHeader := none, decoded := none, events := [] }

/-- `builder.Do` (part_001 lines 195-227): assemble URL, method and codec;
if a request value is set, encode it — an encode error aborts immediately —
then hand off to the send phase. -/
def Do {V : Type} (b : Builder V) (defaultC : CodecM V)
    (parseOk : String → GoStr → Bool)
    (transport : HttpReq → Except String HttpResp × Header) : DoRun V :=
  let codec := buildCodec b defaultC
  match b.req with
  | none =>
      doSend codec b.resp b.header (buildMethod b) (buildURL b) none parseOk transport
  | some v =>
      match codec.encode v with
      | Except.error e =>
          { result := Except.error e, builderHeader := b.header, sentHeader := none,
            decoded := none, events := [DoEv.encodeBody] }
      | Except.ok data =>
          let r := doSend codec b.resp b.header (buildMethod b) (buildURL b) (some data)
            parseOk transport
          { r with events := DoEv.encodeBody :: r.events }

/-- The builder after its shared header map now holds `h`: since
`httpReq.Header = b.header` installs the map itself (no copy), a mutation
performed during execution is a mutation of the builder's own map. -/
def withHeader {V : Type} (b : Builder V) (h : Header) : Builder V :=
  { b with header := h }

/-! ## Theorems -/

/-- Running the fold of instrumented decorators over any instrumented base:
the wrappers later in the list wrap outside, so their entry events come
first and their exit events last. -/
theorem foldWrappers_tagWrapper_run (l : List Nat) :
    ∀ (b : LogTransport) (log : List Ev),
      foldWrappers (l.map tagWrapper) b log =
        b (log ++ l.reverse.map Ev.call) ++ l.map Ev.ret := by
  induction l with
  | nil => intro b log; simp [foldWrappers]
  | cons i l ih =>
      intro b log
      have h1 : foldWrappers ((i :: l).map tagWrapper) b log =
          foldWrappers (l.map tagWrapper) (tagWrapper i b) log := by
        simp [foldWrappers, List.foldl_cons]
      rw [h1, ih (tagWrapper i b) log]
      simp [tagWrapper, List.append_assoc]

/-- C1 (amended): for every list of decorators `[D1, ..., Dn]` registered in
that order, executing a request through the transport built by the
`buildTransport` fold invokes the decorators in the REVERSE order
`Dn, ..., D1`, then the base transport, with responses propagating back
through `D1, ..., Dn`. -/
theorem C1_execution_order_reversed (l : List Nat) :
    foldWrappers (l.map tagWrapper) baseTransport [] =
      l.reverse.map Ev.call ++ [Ev.base] ++ l.map Ev.ret := by
  rw [foldWrappers_tagWrapper_run l baseTransport []]
  simp [baseTransport]

/-- C1 (counterexample): with two instrumented decorators registered in the
order `[D1, D2]`, the composed transport runs `D2` first, then `D1`, then
the base — not `D1` then `D2` as the claim states. -/
theorem C1_counterexample :
    foldWrappers [tagWrapper 1, tagWrapper 2] baseTransport [] =
        [Ev.call 2, Ev.call 1, Ev.base, Ev.ret 1, Ev.ret 2] ∧
      foldWrappers [tagWrapper 1, tagWrapper 2] baseTransport [] ≠
        [Ev.call 1, Ev.call 2, Ev.base, Ev.ret 2, Ev.ret 1] := by
  constructor
  · rfl
  · decide

/-- C4: from any builder state whose `rebuildTransport` flag is 1 (as `New`
creates it and as it forever remains), `buildTransport` re-folds the
decorators (`usedCache = false`), and because the source stores `1` instead
of `0` after rebuilding, the flag is still 1 afterwards and the next call
re-folds again: the cached transport is never returned. -/
theorem C4_cache_never_reused {T : Type} (base : T) (s : TransportCacheState T)
    (h : s.rebuildTransport = 1) :
    (buildTransport base s).usedCache = false ∧
      (buildTransport base s).state.rebuildTransport = 1 ∧
      (buildTransport base (buildTransport base s).state).usedCache = false := by
  simp [buildTransport, h]

/-- C4 witness: concretely, after `New().WrapTransport(D)` the first
`buildTransport` call re-folds, and so does the second. -/
theorem C4_cache_never_reused_witness :
    (buildTransport (0 : Nat)
        (wrapTransport (newTransportCacheState Nat) [fun n => n + 1])).usedCache = false ∧
      (buildTransport (0 : Nat)
        (buildTransport (0 : Nat)
          (wrapTransport (newTransportCacheState Nat) [fun n => n + 1])).state).usedCache
        = false := by
  refine ⟨(C4_cache_never_reused 0 _ rfl).1, (C4_cache_never_reused 0 _ rfl).2.2⟩

/-- C2: for a positive configured duration, the Timeout decorator leaves an
existing context deadline that is at most `now + duration` untouched, and
tightens a missing or later deadline to exactly `now + duration`, before
calling the inner transport. -/
theorem C2_timeout_deadline {R : Type} (duration now : Int) (hpos : 0 < duration)
    (ctxDeadline : Option Int) (inner : Option Int → R) :
    (∀ t, ctxDeadline = some t → t ≤ now + duration →
        (timeoutRoundTrip duration now ctxDeadline inner).innerDeadline = some t) ∧
      ((ctxDeadline = none ∨ ∃ t, ctxDeadline = some t ∧ now + duration < t) →
        (timeoutRoundTrip duration now ctxDeadline inner).innerDeadline
          = some (now + duration)) := by
  have hd : ¬ duration ≤ 0 := not_le.mpr hpos
  constructor
  · intro t ht hle
    subst ht
    simp [timeoutRoundTrip, hd, not_lt.mpr hle]
  · rintro (h | ⟨t, ht, hlt⟩)
    · subst h
      simp [timeoutRoundTrip, hd]
    · subst ht
      simp [timeoutRoundTrip, hd, hlt]

/-- C2 witness: with duration 5 and now 100, an existing deadline 102 is
kept, and an absent deadline becomes 105. -/
theorem C2_timeout_deadline_witness :
    (timeoutRoundTrip 5 100 (some 102) (fun _ => (0 : Nat))).innerDeadline = some 102 ∧
      (timeoutRoundTrip 5 100 none (fun _ => (0 : Nat))).innerDeadline = some 105 := by
  refine ⟨(C2_timeout_deadline 5 100 (by decide) (some 102) _).1 102 rfl (by decide),
    (C2_timeout_deadline 5 100 (by decide) none _).2 (Or.inl rfl)⟩

/-- C3: when the incoming context already carries a deadline at most
`now + duration` (here 102 ≤ 100 + 5), no derived context is created,
`cancel` stays nil, and the deferred `cancel()` call panics instead of
completing the round trip — the decorator faults on this exit path. -/
theorem C3_nil_cancel_panics :
    (timeoutRoundTrip 5 100 (some 102) (fun _ => (0 : Nat))).outcome =
      Except.error GoPanic.nilFunctionCall := rfl

/-- C5: a round trip through the Trace decorator at a concrete input starts
a span, injects the propagation headers, binds the trace id, and calls the
inner transport — but its event log contains no span-end event: the source
never calls `span.End()`. -/
theorem C5_span_never_ended :
    (traceRoundTrip ⟨"abc", [("traceparent", "00-abc")]⟩
        (fun r log => (r.header.length, log ++ [TraceEv.innerCall]))
        ⟨[], []⟩ []).2 =
      [TraceEv.spanStart, TraceEv.inject, TraceEv.bindTraceID, TraceEv.innerCall] ∧
      TraceEv.spanEnd ∉
        (traceRoundTrip ⟨"abc", [("traceparent", "00-abc")]⟩
          (fun r log => (r.header.length, log ++ [TraceEv.innerCall]))
          ⟨[], []⟩ []).2 := by
  constructor
  · rfl
  · decide

/-- C1 witness: the general order theorem at the concrete decorator list
`[1, 2, 3]`. -/
theorem C1_execution_order_reversed_witness :
    foldWrappers ([1, 2, 3].map tagWrapper) baseTransport [] =
      [Ev.call 3, Ev.call 2, Ev.call 1, Ev.base, Ev.ret 1, Ev.ret 2, Ev.ret 3] := by
  have h := C1_execution_order_reversed [1, 2, 3]
  simpa using h

/-- Helper: the per-request field list always contains the host, the path
(under the repeated key "host"), the service name, the start time, the
elapsed milliseconds and the trace id, and contains the status code exactly
when the inner call produced a response. -/
theorem mem_loggingFields (name : String) (r : LogReq) (s e : Int)
    (res : Except String HResp) :
    ("host", FieldVal.str r.host) ∈ loggingFields name r s e res ∧
      ("host", FieldVal.str r.path) ∈ loggingFields name r s e res ∧
      ("service", FieldVal.str name) ∈ loggingFields name r s e res ∧
      ("start", FieldVal.str (formatTime s)) ∈ loggingFields name r s e res ∧
      ("elapsed", FieldVal.int ((e - s) / 1000000)) ∈ loggingFields name r s e res ∧
      ("trace_id", FieldVal.str (traceIDFromContext r.ctx)) ∈ loggingFields name r s e res ∧
      ∀ resp, res = Except.ok resp →
        ("statuscode", FieldVal.int resp.statusCode) ∈ loggingFields name r s e res := by
  cases res <;> simp [loggingFields]

/-- C6: every logging round trip emits exactly one record (the singleton
record list), after the inner call's events; the record's fields include the
target host, the target path (the source keys it "host" as well), the
service name, the start timestamp, the elapsed milliseconds, the trace id —
the empty string when none is bound in the context — and, whenever a
response was obtained, its status code. -/
theorem C6_logging_single_record (name : String) (g : Logger) (r : LogReq)
    (startNs endNs : Int)
    (inner : LogReq → List LogEv → Except String HResp × List LogEv)
    (log : List LogEv) :
    (loggingRoundTrip name g r startNs endNs inner log).records
        = [{ msg := "client_request",
             fields := (loggingRoundTrip name g r startNs endNs inner log).globalLogger }] ∧
      (loggingRoundTrip name g r startNs endNs inner log).events
        = (inner r log).2 ++ [LogEv.logEmit] ∧
      ("host", FieldVal.str r.host)
        ∈ (loggingRoundTrip name g r startNs endNs inner log).globalLogger ∧
      (∃ k, (k, FieldVal.str r.path)
        ∈ (loggingRoundTrip name g r startNs endNs inner log).globalLogger) ∧
      ("service", FieldVal.str name)
        ∈ (loggingRoundTrip name g r startNs endNs inner log).globalLogger ∧
      ("start", FieldVal.str (formatTime startNs))
        ∈ (loggingRoundTrip name g r startNs endNs inner log).globalLogger ∧
      ("elapsed", FieldVal.int ((endNs - startNs) / 1000000))
        ∈ (loggingRoundTrip name g r startNs endNs inner log).globalLogger ∧
      ("trace_id", FieldVal.str (traceIDFromContext r.ctx))
        ∈ (loggingRoundTrip name g r startNs endNs inner log).globalLogger ∧
      (ctxValue r.ctx traceIDKeyName = none →
        ("trace_id", FieldVal.str "")
          ∈ (loggingRoundTrip name g r startNs endNs inner log).globalLogger) ∧
      ∀ resp, (loggingRoundTrip name g r startNs endNs inner log).result = Except.ok resp →
        ("statuscode", FieldVal.int resp.statusCode)
          ∈ (loggingRoundTrip name g r startNs endNs inner log).globalLogger := by
  rcases h : inner r log with ⟨res, log1⟩
  have hm := mem_loggingFields name r startNs endNs res
  have hglobal : (loggingRoundTrip name g r startNs endNs inner log).globalLogger
      = g ++ loggingFields name r startNs endNs res := by
    simp [loggingRoundTrip, h]
  have hres : (loggingRoundTrip name g r startNs endNs inner log).result = res := by
    simp [loggingRoundTrip, h]
  refine ⟨by simp [loggingRoundTrip, h], by simp [loggingRoundTrip, h], ?_, ?_, ?_, ?_, ?_, ?_, ?_, ?_⟩
  · exact hglobal ▸ List.mem_append.mpr (Or.inr hm.1)
  · exact ⟨"host", hglobal ▸ List.mem_append.mpr (Or.inr hm.2.1)⟩
  · exact hglobal ▸ List.mem_append.mpr (Or.inr hm.2.2.1)
  · exact hglobal ▸ List.mem_append.mpr (Or.inr hm.2.2.2.1)
  · exact hglobal ▸ List.mem_append.mpr (Or.inr hm.2.2.2.2.1)
  · exact hglobal ▸ List.mem_append.mpr (Or.inr hm.2.2.2.2.2.1)
  · intro hnone
    have htid : traceIDFromContext r.ctx = "" := by
      simp [traceIDFromContext, hnone]
    exact htid ▸ hglobal ▸ List.mem_append.mpr (Or.inr hm.2.2.2.2.2.1)
  · intro resp hok
    have hres' : res = Except.ok resp := by rw [hres] at hok; exact hok
    exact hglobal ▸ List.mem_append.mpr (Or.inr (hm.2.2.2.2.2.2 resp hres'))

/-- C6 witness: a concrete successful round trip emits the single record,
with the empty trace id (nothing bound in the context) and status code 200
among the global logger's fields. -/
theorem C6_logging_single_record_witness :
    (loggingRoundTrip "svc" [] ⟨"example.com", "/p", []⟩ 0 2000000
        (fun _ l => (Except.ok ⟨200⟩, l ++ [LogEv.innerCall])) []).records
        = [{ msg := "client_request",
             fields := (loggingRoundTrip "svc" [] ⟨"example.com", "/p", []⟩ 0 2000000
               (fun _ l => (Except.ok ⟨200⟩, l ++ [LogEv.innerCall])) []).globalLogger }] ∧
      ("trace_id", FieldVal.str "")
        ∈ (loggingRoundTrip "svc" [] ⟨"example.com", "/p", []⟩ 0 2000000
            (fun _ l => (Except.ok ⟨200⟩, l ++ [LogEv.innerCall])) []).globalLogger ∧
      ("statuscode", FieldVal.int 200)
        ∈ (loggingRoundTrip "svc" [] ⟨"example.com", "/p", []⟩ 0 2000000
            (fun _ l => (Except.ok ⟨200⟩, l ++ [LogEv.innerCall])) []).globalLogger := by
  have h := C6_logging_single_record "svc" [] ⟨"example.com", "/p", []⟩ 0 2000000
    (fun _ l => (Except.ok ⟨200⟩, l ++ [LogEv.innerCall])) []
  exact ⟨h.1, h.2.2.2.2.2.2.2.2.1 rfl, h.2.2.2.2.2.2.2.2.2 ⟨200⟩ rfl⟩

/-- C9: each logging round trip replaces the package-global logger by the
child logger carrying this request's fields, so every field of an earlier
request appears in the record emitted for any later request through the
accumulated global logger. -/
theorem C9_global_logger_accumulates (name : String) (g : Logger) (r1 r2 : LogReq)
    (s1 e1 s2 e2 : Int)
    (inner1 inner2 : LogReq → List LogEv → Except String HResp × List LogEv)
    (log : List LogEv) :
    (loggingRoundTrip name g r1 s1 e1 inner1 log).globalLogger
        = g ++ loggingFields name r1 s1 e1 (inner1 r1 log).1 ∧
      ∀ f ∈ loggingFields name r1 s1 e1 (inner1 r1 log).1,
        ∀ rec ∈ (loggingRoundTrip name
            (loggingRoundTrip name g r1 s1 e1 inner1 log).globalLogger r2 s2 e2 inner2
            (loggingRoundTrip name g r1 s1 e1 inner1 log).events).records,
          f ∈ rec.fields := by
  rcases h1 : inner1 r1 log with ⟨res1, log1⟩
  have hglobal : (loggingRoundTrip name g r1 s1 e1 inner1 log).globalLogger
      = g ++ loggingFields name r1 s1 e1 res1 := by
    simp [loggingRoundTrip, h1]
  constructor
  · rw [hglobal]
  · intro f hf rec hrec
    have hf' : f ∈ loggingFields name r1 s1 e1 res1 := hf
    rcases h2 : inner2 r2 (log1 ++ [LogEv.logEmit]) with ⟨res2, log2⟩
    have hreceq : rec = LogRecord.mk "client_request"
        ((loggingRoundTrip name g r1 s1 e1 inner1 log).globalLogger
          ++ loggingFields name r2 s2 e2 res2) := by
      simpa [loggingRoundTrip, h1, h2] using hrec
    rw [hreceq]
    show f ∈ (loggingRoundTrip name g r1 s1 e1 inner1 log).globalLogger
        ++ loggingFields name r2 s2 e2 res2
    rw [hglobal]
    exact List.mem_append.mpr (Or.inl (List.mem_append.mpr (Or.inr hf')))

/-- C9 witness: the first request's host field ("a.com") appears in the
record emitted for the second request ("b.com"). -/
theorem C9_global_logger_accumulates_witness :
    ("host", FieldVal.str "a.com") ∈
      ((loggingRoundTrip "svc"
          (loggingRoundTrip "svc" [] ⟨"a.com", "/1", []⟩ 0 1000000
            (fun _ l => (Except.ok ⟨204⟩, l ++ [LogEv.innerCall])) []).globalLogger
          ⟨"b.com", "/2", []⟩ 0 1000000
          (fun _ l => (Except.ok ⟨204⟩, l ++ [LogEv.innerCall]))
          (loggingRoundTrip "svc" [] ⟨"a.com", "/1", []⟩ 0 1000000
            (fun _ l => (Except.ok ⟨204⟩, l ++ [LogEv.innerCall])) []).events).records.head?.getD
        { msg := "", fields := [] }).fields := by
  have h := C9_global_logger_accumulates "svc" [] ⟨"a.com", "/1", []⟩ ⟨"b.com", "/2", []⟩
    0 1000000 0 1000000
    (fun _ l => (Except.ok ⟨204⟩, l ++ [LogEv.innerCall]))
    (fun _ l => (Except.ok ⟨204⟩, l ++ [LogEv.innerCall])) []
  exact h.2 ("host", FieldVal.str "a.com") (by decide) _ (by decide)

/-- Helper: when request construction succeeds, the send phase installs the
builder's header map on the outgoing request, leaves the builder's map equal
to whatever the transport's call left in the shared map, and never performs
a body encode. -/
theorem doSend_char {V : Type} (codec : CodecM V) (hasResp : Bool) (hdr0 : Header)
    (method : String) (url : GoStr) (body : Option String)
    (parseOk : String → GoStr → Bool)
    (transport : HttpReq → Except String HttpResp × Header)
    (hp : parseOk method url = true) :
    (doSend codec hasResp hdr0 method url body parseOk transport).sentHeader = some hdr0 ∧
      (doSend codec hasResp hdr0 method url body parseOk transport).builderHeader
        = (transport { method := method, url := url, header := hdr0, body := body }).2 ∧
      DoEv.encodeBody ∉ (doSend codec hasResp hdr0 method url body parseOk transport).events := by
  rcases h : transport { method := method, url := url, header := hdr0, body := body }
    with ⟨tres, hdr⟩
  cases tres with
  | error e => simp [doSend, hp, h]
  | ok resp =>
      cases hasResp with
      | false => simp [doSend, hp, h]
      | true =>
          cases hd : codec.decode resp.body with
          | error e => simp [doSend, hp, h, hd]
          | ok v => simp [doSend, hp, h, hd]

/-- Helper: the send phase of `Do` never performs a body encode, whether or
not request construction succeeds. -/
theorem encodeBody_not_mem_doSend {V : Type} (codec : CodecM V) (hasResp : Bool)
    (hdr0 : Header) (method : String) (url : GoStr) (body : Option String)
    (parseOk : String → GoStr → Bool)
    (transport : HttpReq → Except String HttpResp × Header) :
    DoEv.encodeBody ∉ (doSend codec hasResp hdr0 method url body parseOk transport).events := by
  by_cases hp : parseOk method url = true
  · exact (doSend_char codec hasResp hdr0 method url body parseOk transport hp).2.2
  · simp [doSend, hp]

/-- C7: when no request body value is set, `Do` never invokes the codec's
encode; when one is set and encoding fails, `Do` returns exactly that error
and the transport is never invoked. -/
theorem C7_encode_gating {V : Type} (b : Builder V) (defaultC : CodecM V)
    (parseOk : String → GoStr → Bool)
    (transport : HttpReq → Except String HttpResp × Header) :
    (b.req = none → DoEv.encodeBody ∉ (Do b defaultC parseOk transport).events) ∧
      ∀ v e, b.req = some v →
        (buildCodec b defaultC).encode v = Except.error e →
          (Do b defaultC parseOk transport).result = Except.error e ∧
            DoEv.transportCall ∉ (Do b defaultC parseOk transport).events := by
  constructor
  · intro hnone
    have h := encodeBody_not_mem_doSend (buildCodec b defaultC) b.resp b.header
      (buildMethod b) (buildURL b) none parseOk transport
    simpa [Do, hnone] using h
  · intro v e hv he
    constructor
    · simp [Do, hv, he]
    · simp [Do, hv, he]

/-- C7 witness: a concrete builder whose codec fails to encode its body:
`Do` returns the encode error and the transport is never called. -/
theorem C7_encode_gating_witness :
    (Do (@Builder.mk Nat [] [120] "" none false (some 7) [] [])
        ⟨fun _ => Except.error "boom", fun _ => Except.error "nope"⟩
        (fun _ _ => true)
        (fun req => (Except.ok ⟨200, ""⟩, req.header))).result = Except.error "boom" ∧
      DoEv.transportCall ∉
        (Do (@Builder.mk Nat [] [120] "" none false (some 7) [] [])
          ⟨fun _ => Except.error "boom", fun _ => Except.error "nope"⟩
          (fun _ _ => true)
          (fun req => (Except.ok ⟨200, ""⟩, req.header))).events := by
  exact (C7_encode_gating (@Builder.mk Nat [] [120] "" none false (some 7) [] [])
    ⟨fun _ => Except.error "boom", fun _ => Except.error "nope"⟩
    (fun _ _ => true)
    (fun req => (Except.ok ⟨200, ""⟩, req.header))).2 7 "boom" rfl rfl

/-- C10: `Do` installs the builder's own header map on the outgoing request
(the sent header is exactly `b.header`); a header a decorator injects during
execution lands in the builder's map (the builder's header afterwards is the
injected extension), and a subsequent `Do` of the same builder sends the
injected header again. -/
theorem C10_header_aliasing {V : Type} (b : Builder V) (defaultC : CodecM V)
    (parseOk : String → GoStr → Bool) (injected : Header) (resp resp2 : HttpResp)
    (hreq : b.req = none)
    (hparse : parseOk (buildMethod b) (buildURL b) = true) :
    (Do b defaultC parseOk (fun req => (Except.ok resp, req.header ++ injected))).sentHeader
        = some b.header ∧
      (Do b defaultC parseOk (fun req => (Except.ok resp, req.header ++ injected))).builderHeader
        = b.header ++ injected ∧
      (Do (withHeader b (Do b defaultC parseOk
            (fun req => (Except.ok resp, req.header ++ injected))).builderHeader)
          defaultC parseOk (fun req => (Except.ok resp2, req.header))).sentHeader
        = some (b.header ++ injected) := by
  have hDo : Do b defaultC parseOk (fun req => (Except.ok resp, req.header ++ injected))
      = doSend (buildCodec b defaultC) b.resp b.header (buildMethod b) (buildURL b) none
          parseOk (fun req => (Except.ok resp, req.header ++ injected)) := by
    simp [Do, hreq]
  have h1 := doSend_char (buildCodec b defaultC) b.resp b.header (buildMethod b)
    (buildURL b) none parseOk (fun req => (Except.ok resp, req.header ++ injected)) hparse
  have hsent1 : (Do b defaultC parseOk
      (fun req => (Except.ok resp, req.header ++ injected))).sentHeader = some b.header := by
    rw [hDo]; exact h1.1
  have hhdr1 : (Do b defaultC parseOk
      (fun req => (Except.ok resp, req.header ++ injected))).builderHeader
      = b.header ++ injected := by
    rw [hDo]; exact h1.2.1
  refine ⟨hsent1, hhdr1, ?_⟩
  have hDo2 : Do (withHeader b (Do b defaultC parseOk
        (fun req => (Except.ok resp, req.header ++ injected))).builderHeader)
        defaultC parseOk (fun req => (Except.ok resp2, req.header))
      = doSend (buildCodec b defaultC) b.resp
          (Do b defaultC parseOk
            (fun req => (Except.ok resp, req.header ++ injected))).builderHeader
          (buildMethod b) (buildURL b) none parseOk
          (fun req => (Except.ok resp2, req.header)) := by
    simp [Do, withHeader, hreq, buildCodec, buildMethod, buildURL]
  have h2 := doSend_char (buildCodec b defaultC) b.resp
    (Do b defaultC parseOk
      (fun req => (Except.ok resp, req.header ++ injected))).builderHeader
    (buildMethod b) (buildURL b) none parseOk
    (fun req => (Except.ok resp2, req.header)) hparse
  rw [hDo2, h2.1, hhdr1]

/-- C10 witness: with one header pair set and a transport that injects a
trace propagation header, the builder's map afterwards holds the injected
pair and the second `Do` sends it. -/
theorem C10_header_aliasing_witness :
    (Do (@Builder.mk Nat [] [120] "" none false none [] [("k", "v")])
        ⟨fun _ => Except.ok "", fun _ => Except.error "nope"⟩
        (fun _ _ => true)
        (fun req => (Except.ok ⟨200, ""⟩,
          req.header ++ [("traceparent", "00-x")]))).builderHeader
        = [("k", "v")] ++ [("traceparent", "00-x")] ∧
      (Do (withHeader (@Builder.mk Nat [] [120] "" none false none [] [("k", "v")])
            (Do (@Builder.mk Nat [] [120] "" none false none [] [("k", "v")])
              ⟨fun _ => Except.ok "", fun _ => Except.error "nope"⟩
              (fun _ _ => true)
              (fun req => (Except.ok ⟨200, ""⟩,
                req.header ++ [("traceparent", "00-x")]))).builderHeader)
          ⟨fun _ => Except.ok "", fun _ => Except.error "nope"⟩
          (fun _ _ => true)
          (fun req => (Except.ok ⟨204, ""⟩, req.header))).sentHeader
        = some ([("k", "v")] ++ [("traceparent", "00-x")]) := by
  have h := C10_header_aliasing (@Builder.mk Nat [] [120] "" none false none [] [("k", "v")])
    ⟨fun _ => Except.ok "", fun _ => Except.error "nope"⟩
    (fun _ _ => true) [("traceparent", "00-x")] ⟨200, ""⟩ ⟨204, ""⟩ rfl rfl
  exact ⟨h.2.1, h.2.2⟩

/-- Helper: adding a value appends it to the key's stored value list. -/
theorem lookupVals_valuesAdd_self (vs : Values) (k v : GoStr) :
    lookupVals (valuesAdd vs k v) k = lookupVals vs k ++ [v] := by
  induction vs with
  | nil => simp [valuesAdd, lookupVals]
  | cons p rest ih =>
      rcases p with ⟨k', l⟩
      by_cases hk : k' = k
      · subst hk
        simp [valuesAdd, lookupVals]
      · simp [valuesAdd, lookupVals, hk, ih]

/-- Helper: adding a value leaves every other key's values unchanged. -/
theorem lookupVals_valuesAdd_ne (vs : Values) (k k' v : GoStr) (hne : k' ≠ k) :
    lookupVals (valuesAdd vs k v) k' = lookupVals vs k' := by
  have hne' : k ≠ k' := Ne.symm hne
  induction vs with
  | nil => simp [valuesAdd, lookupVals, hne']
  | cons p rest ih =>
      rcases p with ⟨k'', l⟩
      by_cases hk : k'' = k
      · subst hk
        simp [valuesAdd, lookupVals, hne']
      · by_cases hk' : k'' = k'
        · subst hk'
          simp [valuesAdd, lookupVals, hk]
        · simp [valuesAdd, lookupVals, hk, hk', ih]

/-- Helper: bytewise lexicographic order is total. -/
theorem goStrLe_total (s t : GoStr) : goStrLe s t = true ∨ goStrLe t s = true := by
  induction s generalizing t with
  | nil => exact Or.inl rfl
  | cons a s ih =>
      cases t with
      | nil => exact Or.inr rfl
      | cons b t' =>
          rcases Nat.lt_trichotomy a b with h | h | h
          · left
            simp [goStrLe, h]
          · subst h
            rcases ih t' with h' | h'
            · left
              simp [goStrLe, h']
            · right
              simp [goStrLe, h']
          · right
            simp [goStrLe, h]

/-- Helper: bytewise lexicographic order is transitive. -/
theorem goStrLe_trans (s t u : GoStr) (hst : goStrLe s t = true)
    (htu : goStrLe t u = true) : goStrLe s u = true := by
  induction s generalizing t u with
  | nil => rfl
  | cons a s ih =>
      cases t with
      | nil => simp [goStrLe] at hst
      | cons b t' =>
          cases u with
          | nil => simp [goStrLe] at htu
          | cons c u' =>
              rcases Nat.lt_trichotomy a b with hab | hab | hab
              · rcases Nat.lt_trichotomy b c with hbc | hbc | hbc
                · simp [goStrLe, hab.trans hbc]
                · subst hbc
                  simp [goStrLe, hab]
                · exfalso
                  have h1 : ¬ b < c := Nat.lt_asymm hbc
                  simp [goStrLe, h1, hbc] at htu
              · subst hab
                rcases Nat.lt_trichotomy a c with hac | hac | hac
                · simp [goStrLe, hac]
                · subst hac
                  simp [goStrLe] at hst htu ⊢
                  exact ih t' u' hst htu
                · exfalso
                  have h1 : ¬ a < c := Nat.lt_asymm hac
                  simp [goStrLe, h1, hac] at htu
              · exfalso
                have h1 : ¬ a < b := Nat.lt_asymm hab
                simp [goStrLe, h1, hab] at hst

/-- Helper: inserting into the sorted list is a permutation of consing. -/
theorem insertByKey_perm (p : GoStr × List GoStr) (l : Values) :
    List.Perm (insertByKey p l) (p :: l) := by
  induction l with
  | nil => simp [insertByKey]
  | cons q rest ih =>
      by_cases h : goStrLe p.1 q.1 = true
      · simp [insertByKey, h]
      · have hstep : insertByKey p (q :: rest) = q :: insertByKey p rest := by
          simp [insertByKey, h]
        rw [hstep]
        exact (ih.cons q).trans (List.Perm.swap p q rest)

/-- Helper: inserting preserves key-sortedness. -/
theorem pairwise_insertByKey (p : GoStr × List GoStr) (l : Values)
    (hl : List.Pairwise (fun a b => goStrLe a.1 b.1 = true) l) :
    List.Pairwise (fun a b => goStrLe a.1 b.1 = true) (insertByKey p l) := by
  induction l with
  | nil => simp [insertByKey]
  | cons q rest ih =>
      rcases List.pairwise_cons.mp hl with ⟨hq, hrest⟩
      by_cases hpq : goStrLe p.1 q.1 = true
      · have hstep : insertByKey p (q :: rest) = p :: q :: rest := by
          simp [insertByKey, hpq]
        rw [hstep]
        refine List.pairwise_cons.mpr ⟨?_, hl⟩
        intro b hb
        rcases List.mem_cons.mp hb with rfl | hb'
        · exact hpq
        · exact goStrLe_trans p.1 q.1 b.1 hpq (hq b hb')
      · have hqp : goStrLe q.1 p.1 = true := (goStrLe_total p.1 q.1).resolve_left hpq
        have hstep : insertByKey p (q :: rest) = q :: insertByKey p rest := by
          simp [insertByKey, hpq]
        rw [hstep]
        refine List.pairwise_cons.mpr ⟨?_, ih hrest⟩
        intro b hb
        have hb' : b ∈ p :: rest := (insertByKey_perm p rest).mem_iff.mp hb
        rcases List.mem_cons.mp hb' with rfl | hb''
        · exact hqp
        · exact hq b hb''

/-- Helper: sorting the entries is a permutation. -/
theorem sortByKey_perm (vs : Values) : List.Perm (sortByKey vs) vs := by
  induction vs with
  | nil => simp [sortByKey]
  | cons p rest ih => exact (insertByKey_perm p (sortByKey rest)).trans (ih.cons p)

/-- Helper: the sorted entries are pairwise key-ordered. -/
theorem sortByKey_pairwise (vs : Values) :
    List.Pairwise (fun a b => goStrLe a.1 b.1 = true) (sortByKey vs) := by
  induction vs with
  | nil => simp [sortByKey]
  | cons p rest ih => exact pairwise_insertByKey p (sortByKey rest) ih

/-- Helper: uppercase hex digits are unreserved bytes. -/
theorem hexUpper_unreserved (n : Nat) (h : n < 16) :
    unreservedByte (hexUpper n) = true := by
  interval_cases n <;> decide

/-- Helper: escaping one genuine byte yields only query-safe bytes. -/
theorem queryEscapeByte_safe (b : Nat) (hb : b < 256) :
    ∀ c ∈ queryEscapeByte b, querySafeByte c = true := by
  intro c hc
  by_cases h1 : unreservedByte b = true
  · simp [queryEscapeByte, h1] at hc
    subst hc
    simp [querySafeByte, h1]
  · by_cases h2 : b = 32
    · subst h2
      simp [queryEscapeByte, h1] at hc
      subst hc
      decide
    · simp [queryEscapeByte, h1, h2] at hc
      rcases hc with rfl | rfl | rfl
      · decide
      · have hd : b / 16 < 16 := by omega
        simp [querySafeByte, hexUpper_unreserved _ hd]
      · have hm : b % 16 < 16 := Nat.mod_lt _ (by omega)
        simp [querySafeByte, hexUpper_unreserved _ hm]

/-- Helper: escaping a genuine byte string yields only query-safe bytes. -/
theorem queryEscape_safe (s : GoStr) (hs : validStr s = true) :
    ∀ c ∈ queryEscape s, querySafeByte c = true := by
  intro c hc
  rcases List.mem_flatMap.mp hc with ⟨b, hbmem, hcb⟩
  have hb : b < 256 := by
    have h := List.all_eq_true.mp hs b hbmem
    exact of_decide_eq_true h
  exact queryEscapeByte_safe b hb c hcb

/-- Helper: a `key=value` segment of genuine byte strings is query-safe. -/
theorem pairSegment_safe (k v : GoStr) (hk : validStr k = true)
    (hv : validStr v = true) :
    ∀ c ∈ pairSegment k v, querySafeByte c = true := by
  intro c hc
  rcases List.mem_append.mp hc with hc1 | hc2
  · rcases List.mem_append.mp hc1 with hck | hceq
    · exact queryEscape_safe k hk c hck
    · simp at hceq
      subst hceq
      decide
  · exact queryEscape_safe v hv c hc2

/-- Helper: joining query-safe segments with `&` stays query-safe. -/
theorem joinAmp_safe (segs : List GoStr)
    (h : ∀ s ∈ segs, ∀ c ∈ s, querySafeByte c = true) :
    ∀ c ∈ joinAmp segs, querySafeByte c = true := by
  induction segs with
  | nil =>
      intro c hc
      simp [joinAmp] at hc
  | cons s rest ih =>
      cases rest with
      | nil =>
          intro c hc
          exact h s (by simp) c hc
      | cons s2 rest2 =>
          intro c hc
          simp only [joinAmp] at hc
          rcases List.mem_append.mp hc with hc1 | hc2
          · rcases List.mem_append.mp hc1 with hcs | hcamp
            · exact h s (by simp) c hcs
            · simp at hcamp
              subst hcamp
              decide
          · exact ih (fun t ht cc hcc => h t (List.mem_cons_of_mem s ht) cc hcc) c hc2

/-- Helper: the full encoded query of genuine byte strings is query-safe. -/
theorem encodeValues_safe (vs : Values) (hvs : validValues vs = true) :
    ∀ c ∈ encodeValues vs, querySafeByte c = true := by
  have hsegs : ∀ s ∈ encodedSegments vs, ∀ c ∈ s, querySafeByte c = true := by
    intro s hs
    rcases List.mem_flatMap.mp hs with ⟨p, hp, hsp⟩
    rcases List.mem_map.mp hsp with ⟨v, hv, rfl⟩
    have hpvs : p ∈ vs := (sortByKey_perm vs).mem_iff.mp hp
    have hall := List.all_eq_true.mp hvs p hpvs
    have hall' : validStr p.1 = true ∧ p.2.all validStr = true := by simpa using hall
    rcases hall' with ⟨hk, hvals⟩
    have hv' : validStr v = true := List.all_eq_true.mp hvals v hv
    exact pairSegment_safe p.1 v hk hv'
  intro c hc
  exact joinAmp_safe (encodedSegments vs) hsegs c hc

/-- Helper: every stored value of every key contributes its escaped
`key=value` segment to the encoded output. -/
theorem pairSegment_mem_encodedSegments (vs : Values) (k : GoStr) (l : List GoStr)
    (v : GoStr) (hkl : (k, l) ∈ vs) (hv : v ∈ l) :
    pairSegment k v ∈ encodedSegments vs := by
  have h1 : (k, l) ∈ sortByKey vs := ((sortByKey_perm vs).mem_iff).mpr hkl
  exact List.mem_flatMap.mpr ⟨(k, l), h1, List.mem_map.mpr ⟨v, hv, rfl⟩⟩

/-- C8: the final URL is the base URL (when set) concatenated with the URL,
followed by `?` and the encoded query exactly when at least one parameter
exists (the spec-side assembly); repeated query keys preserve all their
values in order and leave other keys untouched; the encoder emits keys in
sorted order without losing or duplicating entries; every stored value
appears as its percent-encoded `key=value` segment; and the encoded query
consists solely of query-safe bytes. -/
theorem C8_url_assembly {V : Type} (b : Builder V) :
    buildURL b = specAssembledURL b ∧
      (∀ vs k v, lookupVals (valuesAdd vs k v) k = lookupVals vs k ++ [v]) ∧
      (∀ vs k k' v, k' ≠ k → lookupVals (valuesAdd vs k v) k' = lookupVals vs k') ∧
      (∀ vs, List.Pairwise (fun p q => goStrLe p.1 q.1 = true) (sortByKey vs)) ∧
      (∀ vs, List.Perm (sortByKey vs) vs) ∧
      (∀ vs k l v, (k, l) ∈ vs → v ∈ l → pairSegment k v ∈ encodedSegments vs) ∧
      (∀ vs, validValues vs = true → ∀ c ∈ encodeValues vs, querySafeByte c = true) := by
  refine ⟨?_, lookupVals_valuesAdd_self, ?_, sortByKey_pairwise, sortByKey_perm,
    pairSegment_mem_encodedSegments, encodeValues_safe⟩
  · unfold buildURL specAssembledURL
    by_cases hb : b.baseURL ≠ []
    · by_cases hv : b.values ≠ [] <;> simp [hb, hv, List.append_assoc]
    · by_cases hv : b.values ≠ [] <;> simp [hb, hv, List.append_assoc]
  · intro vs k k' v hne
    exact lookupVals_valuesAdd_ne vs k k' v hne

/-- C8 witness: the assembly equation at a concrete builder
(base "h", url "/", one parameter k=1), value-preservation for a repeated
key and for a different key, segment membership, and query-safety of the
encoding of a space (`+` is safe), all at concrete inputs. -/
theorem C8_url_assembly_witness :
    buildURL (@Builder.mk Nat [104] [47] "" none false none [([107], [[49]])] [])
        = specAssembledURL (@Builder.mk Nat [104] [47] "" none false none [([107], [[49]])] []) ∧
      lookupVals (valuesAdd [([107], [[49]])] [107] [50]) [107] = [[49], [50]] ∧
      lookupVals (valuesAdd [([107], [[49]])] [107] [50]) [106] = [] ∧
      pairSegment [107] [49] ∈ encodedSegments [([107], [[49]])] ∧
      querySafeByte 43 = true := by
  have h := C8_url_assembly (@Builder.mk Nat [104] [47] "" none false none [([107], [[49]])] [])
  refine ⟨h.1, ?_, ?_, ?_, ?_⟩
  · have h2 := h.2.1 [([107], [[49]])] [107] [50]
    simpa using h2
  · have h3 := h.2.2.1 [([107], [[49]])] [107] [106] [50] (by decide)
    simpa using h3
  · exact h.2.2.2.2.2.1 [([107], [[49]])] [107] [[49]] [49] (by decide) (by decide)
  · exact h.2.2.2.2.2.2 [([32], [[32]])] (by decide) 43 (by decide)

end Goreq
